import Mathlib

/-!
Verification of the wordle-solver engine: a shallow embedding of the
feedback oracle, pattern-code codec, pattern matrix, solver engine
(turn application / status classification), session layer (turn log,
undo by replay) and vocabulary loading, translated from the Rust
sources (src/solver/oracle.rs, src/solver/engine.rs, src/session.rs,
src/solver/load.rs), together with theorems about the specified
behaviour.

Words are modelled as lists of byte values (`List Nat`); a valid word
is a list of exactly 5 lowercase-ASCII bytes.  Machine integers (u8,
u16, usize) are modelled as `Nat`, with an explicit `% 256` where the
code narrows a pattern code to `u8`.  Rust's `&mut self` methods that
return `Result` are modelled as functions returning the result
together with the (possibly unchanged) successor state; each early
`return Err(..)` in the source leaves `self` untouched, hence returns
the input state unchanged.
-/

/-- `PATTERN_BUCKETS` from oracle.rs: `3_usize.pow(5)` = 243 possible
feedback patterns. -/
def PATTERN_BUCKETS : Nat := 3 ^ 5

/-- `ALL_GREEN_CODE` from oracle.rs: the all-correct pattern code. -/
def ALL_GREEN_CODE : Nat := 242

/-- `li` from oracle.rs: letter index `b - b'a'` (Nat subtraction; the
code asserts the byte is lowercase ASCII, so no underflow occurs on
valid words). -/
def li (b : Nat) : Nat := b - 97

/-- Increment one slot of a counts array (`counts[i] += 1`). -/
def bumpAt (counts : Nat → Nat) (i : Nat) : Nat → Nat :=
  fun j => if j = i then counts i + 1 else counts j

/-- Decrement one slot of a counts array (`counts[i] -= 1`). -/
def decAt (counts : Nat → Nat) (i : Nat) : Nat → Nat :=
  fun j => if j = i then counts i - 1 else counts j

/-- The per-letter count array initialised from the target's letter
multiset (`for &c in t.iter() { counts[li(c)] += 1; }`). -/
def countsInit (t : List Nat) : Nat → Nat :=
  t.foldl (fun counts c => bumpAt counts (li c)) (fun _ => 0)

/-- Pass 1 of `simulate_results_code`: walk guess and target together,
marking exact positional matches with state 2 ("correct") and
decrementing the letter's remaining count; other positions get state 0.
Returns the state list and the updated counts. -/
def passGreens : List Nat → List Nat → (Nat → Nat) → List Nat × (Nat → Nat)
  | g :: gs, t :: ts, counts =>
    if g = t then
      let res := passGreens gs ts (decAt counts (li g))
      (2 :: res.1, res.2)
    else
      let res := passGreens gs ts counts
      (0 :: res.1, res.2)
  | _, _, counts => ([], counts)

/-- Pass 2 of `simulate_results_code`: scan left to right over the
state from pass 1; a non-correct position becomes 1 ("present") when
the guessed letter's remaining count is positive (decrementing it),
else stays 0 ("absent"); correct positions are untouched. -/
def passYellows : List Nat → List Nat → (Nat → Nat) → List Nat
  | g :: gs, st :: sts, counts =>
    if st = 0 then
      if 0 < counts (li g) then 1 :: passYellows gs sts (decAt counts (li g))
      else 0 :: passYellows gs sts counts
    else st :: passYellows gs sts counts
  | _, _, _ => []

/-- Base-3 packing loop of `simulate_results_code`
(`code += digit * pow; pow *= 3`). -/
def packBase3 : Nat → List Nat → Nat
  | _, [] => 0
  | pow, d :: ds => d * pow + packBase3 (pow * 3) ds

/-- `simulate_results_code` from oracle.rs: the Wordle feedback oracle
with duplicate-letter handling — greens first, then yellows, then
base-3 encoding. -/
def simulate_results_code (guess target : List Nat) : Nat :=
  let p1 := passGreens guess target (countsInit target)
  let state := passYellows guess p1.1 p1.2
  packBase3 1 state

/-- One character of `parse_results_code`'s match:
`b'B' => 0, b'Y' => 1, b'G' => 2`, anything else rejected. -/
def charDigit (b : Char) : Option Nat :=
  if b = 'B' then some 0 else if b = 'Y' then some 1 else
  if b = 'G' then some 2 else none

/-- The accumulation loop of `parse_results_code`
(`code += digit * pow; pow *= 3`), with early exit on a bad
character. -/
def parseLoop : Nat → List Char → Option Nat
  | _, [] => some 0
  | pow, b :: rest =>
    match charDigit b with
    | none => none
    | some d =>
      match parseLoop (pow * 3) rest with
      | none => none
      | some c => some (d * pow + c)

/-- `parse_results_code` from oracle.rs: parse a 5-character G/Y/B
string into a pattern code; any other length or character is
rejected. -/
def parse_results_code (results : List Char) : Option Nat :=
  if results.length = 5 then parseLoop 1 results else none

/-- One digit of `results_code_to_string`'s match:
`0 => b'B', 1 => b'Y', 2 => b'G'` (the source marks other values
unreachable; digits are always < 3). -/
def digitChar (d : Nat) : Char :=
  if d = 0 then 'B' else if d = 1 then 'Y' else 'G'

/-- The slot loop of `results_code_to_string`: emit `k` base-3 digits
of `code`, least significant first. -/
def toTextLoop : Nat → Nat → List Char
  | _, 0 => []
  | code, k + 1 => digitChar (code % 3) :: toTextLoop (code / 3) k

/-- `results_code_to_string` from oracle.rs: render a pattern code as
its 5-character G/Y/B string. -/
def results_code_to_string (code : Nat) : List Char :=
  toTextLoop code 5

/-- `GameStatus` from types.rs. -/
inductive GameStatus
  | Won
  | Lost
  | Ongoing
deriving DecidableEq

/-- `SolverError` from types.rs. -/
inductive SolverError
  | InvalidResultsPattern
  | GuessNotInWordList (w : List Nat)
  | InconsistentFeedback
deriving DecidableEq

/-- The observable solver state from engine.rs: the shared vocabulary
plus the candidate-index subset, the mirrored candidate word list, and
the attempt counters.  (The pattern matrix and word→index map are pure
functions of `words`, modelled by `matrixEntry` and `wordIndex`.) -/
structure WordleSolver where
  words : List (List Nat)
  candidate_indices : List Nat
  candidate_words : List (List Nat)
  attempts : Nat
  max_attempts : Nat
deriving DecidableEq

/-- One entry of the pattern matrix built by `build_pattern_matrix`:
`matrix[guess_idx * n + target_idx] = simulate_results_code(guess, target) as u8`.
The `% 256` models the narrowing cast to `u8`. -/
def matrixEntry (words : List (List Nat)) (gi ti : Nat) : Nat :=
  simulate_results_code (words.getD gi []) (words.getD ti []) % 256

/-- The `word_to_index` map from engine.rs: built with
`entry(word).or_insert(idx)`, so a word maps to its first index in the
vocabulary; absent words have no entry. -/
def wordIndex (words : List (List Nat)) (w : List Nat) : Option Nat :=
  if w ∈ words then some (words.indexOf w) else none

/-- `WordleSolver::from_word_list`: all vocabulary ordinals start as
candidates, zero attempts, maximum 6 attempts. -/
def from_word_list (word_list : List (List Nat)) : WordleSolver :=
  { words := word_list
    candidate_indices := List.range word_list.length
    candidate_words := word_list
    attempts := 0
    max_attempts := 6 }

/-- `WordleSolver::check_game_status`: Won on the all-correct code,
else Lost once the attempt counter has reached the maximum, else
Ongoing. -/
def check_game_status (s : WordleSolver) (code : Nat) : GameStatus :=
  if code = ALL_GREEN_CODE then GameStatus.Won
  else if s.max_attempts ≤ s.attempts then GameStatus.Lost
  else GameStatus.Ongoing

/-- `WordleSolver::next_turn`: validate the feedback range, look the
guess up in the vocabulary, filter the candidate indices by the guess's
matrix row, reject an empty result, otherwise commit the new candidate
set, increment the attempt counter and classify the status.  Each
error path returns the input state unchanged, mirroring the early
`return Err(..)` before any mutation of `self`. -/
def next_turn (s : WordleSolver) (guess : List Nat) (feedback : Nat) :
    Except SolverError GameStatus × WordleSolver :=
  if PATTERN_BUCKETS ≤ feedback then (Except.error SolverError.InvalidResultsPattern, s)
  else
    match wordIndex s.words guess with
    | none => (Except.error (SolverError.GuessNotInWordList guess), s)
    | some gi =>
      let next_candidate_indices :=
        s.candidate_indices.filter
          (fun ti => decide (matrixEntry s.words gi ti = feedback % 256))
      if next_candidate_indices = [] then
        (Except.error SolverError.InconsistentFeedback, s)
      else
        let s1 : WordleSolver :=
          { s with
            candidate_indices := next_candidate_indices
            candidate_words :=
              next_candidate_indices.map (fun idx => s.words.getD idx [])
            attempts := s.attempts + 1 }
        (Except.ok (check_game_status s1 feedback), s1)

/-- The bucket-counting half of `calculate_entropy_row`: how many
current candidate targets fall into each of the 243 feedback patterns
for a given guess row. -/
def bucketCounts (words : List (List Nat)) (gi : Nat) (candidates : List Nat) :
    Nat → Nat :=
  candidates.foldl (fun buckets ti => bumpAt buckets (matrixEntry words gi ti))
    (fun _ => 0)

/-- The sort comparator of `scored_guesses`
(`hb.total_cmp(ha).then_with(|| wa.cmp(wb))`): `a` precedes `b` when
`a`'s score is strictly higher, or the scores are equal and `a`'s word
is lexicographically no greater.  Scores live in an arbitrary linear
order, standing for `f64` under `total_cmp`. -/
def scoredLe {F : Type} [LinearOrder F] (a b : List Nat × F) : Bool :=
  decide (b.2 < a.2 ∨ (a.2 = b.2 ∧ a.1 ≤ b.1))

/-- `WordleSolver::scored_guesses`, parameterised by the entropy
function (the `f64` Shannon-entropy computation over the bucket counts
and the candidate count, abstracted as any function into a linear
order): map every candidate ordinal to its (word, score) pair in
candidate order, then sort with `scoredLe`.  `List.mergeSort` models
Rust's stable `sort_by`; since `scoredLe` is a total, transitive,
antisymmetric comparator the sorted output is uniquely determined. -/
def scored_guesses {F : Type} [LinearOrder F]
    (entropy : (Nat → Nat) → Nat → F) (s : WordleSolver) : List (List Nat × F) :=
  let v := s.candidate_indices.map (fun gi =>
    (s.words.getD gi [],
     entropy (bucketCounts s.words gi s.candidate_indices)
       s.candidate_indices.length))
  v.mergeSort scoredLe

/-- `Turn` from session.rs. -/
structure Turn where
  guess : List Nat
  feedback : Nat
deriving DecidableEq

/-- `GameSession` from session.rs. -/
structure GameSession where
  initial_solver : WordleSolver
  solver : WordleSolver
  turns : List Turn
deriving DecidableEq

/-- `GameSession::apply_turn`: delegate to the engine; on success
append the turn to the log, on failure forward the error with the log
untouched (the engine already left its own state unchanged). -/
def apply_turn (gs : GameSession) (guess : List Nat) (feedback : Nat) :
    Except SolverError GameStatus × GameSession :=
  match next_turn gs.solver guess feedback with
  | (Except.error e, s1) => (Except.error e, { gs with solver := s1 })
  | (Except.ok status, s1) =>
    (Except.ok status,
     { gs with solver := s1, turns := gs.turns ++ [⟨guess, feedback⟩] })

/-- The loop of `GameSession::replay_turns`: fold `next_turn` over a
turn list, propagating the first error. -/
def replayList (s : WordleSolver) : List Turn → Except SolverError WordleSolver
  | [] => Except.ok s
  | t :: rest =>
    match next_turn s t.guess t.feedback with
    | (Except.error e, _) => Except.error e
    | (Except.ok _, s1) => replayList s1 rest

/-- `GameSession::replay_turns`: rebuild a solver by replaying the
whole log from a clone of the pristine initial solver. -/
def replay_turns (gs : GameSession) : Except SolverError WordleSolver :=
  replayList gs.initial_solver gs.turns

/-- `GameSession::undo`: pop the last logged turn (reporting `false`
on an empty log), replay the remainder from the initial solver; on the
(defensive) replay failure push the popped turn back and report
`false`. -/
def undo (gs : GameSession) : Bool × GameSession :=
  match gs.turns.getLast? with
  | none => (false, gs)
  | some popped =>
    let gs1 : GameSession := { gs with turns := gs.turns.dropLast }
    match replay_turns gs1 with
    | Except.ok rebuilt => (true, { gs1 with solver := rebuilt })
    | Except.error _ => (false, { gs1 with turns := gs1.turns ++ [popped] })

/-- ASCII whitespace bytes removed by `str::trim` (the ASCII subset of
`char::is_whitespace`). -/
def isAsciiWhitespace (b : Nat) : Bool :=
  b = 32 || b = 9 || b = 10 || b = 11 || b = 12 || b = 13

/-- Byte-level model of `line.trim()`: strip leading and trailing
ASCII whitespace. -/
def trimBytes (s : List Nat) : List Nat :=
  ((s.dropWhile isAsciiWhitespace).reverse.dropWhile isAsciiWhitespace).reverse

/-- One byte of `parse_word5`'s match: keep `a..=z`, lowercase
`A..=Z` by adding 32, reject anything else. -/
def lowerByte (b : Nat) : Option Nat :=
  if 97 ≤ b ∧ b ≤ 122 then some b
  else if 65 ≤ b ∧ b ≤ 90 then some (b + 32)
  else none

/-- The letter loop of `parse_word5`: lowercase every byte, rejecting
the whole word on the first non-letter. -/
def parseLetters : List Nat → Option (List Nat)
  | [] => some []
  | b :: rest =>
    match lowerByte b with
    | none => none
    | some lower => (parseLetters rest).map (fun w => lower :: w)

/-- `parse_word5` from oracle.rs: trim the line, require exactly 5
bytes, lowercase and validate each as an ASCII letter. -/
def parse_word5 (line : List Nat) : Option (List Nat) :=
  let s := trimBytes line
  if s.length = 5 then parseLetters s else none

/-- The load-time error cases of `load_word_list` (modelled
structurally; the source wraps them in `io::Error` messages). -/
inductive LoadError
  | invalidWord (line_no : Nat)
  | emptyWordList
deriving DecidableEq

/-- The line loop of `load_word_list`: parse each line (failing with
its 1-based number), dropping words already collected while preserving
first-occurrence order.  The `seen` hash set of the source always
holds exactly the words collected so far, so membership in the
accumulator models `seen.insert(word)` returning false. -/
def loadLoop : List (List Nat) → Nat → List (List Nat) →
    Except LoadError (List (List Nat))
  | [], _, words => Except.ok words
  | raw :: rest, idx, words =>
    match parse_word5 raw with
    | none => Except.error (LoadError.invalidWord (idx + 1))
    | some word =>
      if word ∈ words then loadLoop rest (idx + 1) words
      else loadLoop rest (idx + 1) (words ++ [word])

/-- `load_word_list` from load.rs, over the sequence of raw input
lines: run the line loop from line 1 with an empty accumulator, then
reject an empty vocabulary. -/
def load_word_list (lines : List (List Nat)) :
    Except LoadError (List (List Nat)) :=
  match loadLoop lines 0 [] with
  | Except.error e => Except.error e
  | Except.ok words =>
    if words = [] then Except.error LoadError.emptyWordList else Except.ok words

/-- Spec-side description of duplicate dropping ("order-preserving on
first occurrence"): keep each word's first occurrence, deleting all its
later duplicates. -/
def firstOccurrences : List (List Nat) → List (List Nat)
  | [] => []
  | w :: rest => w :: (firstOccurrences rest).filter (fun x => decide (x ≠ w))
deriving instance DecidableEq for Except

/-- The filtered candidate-index list computed inside `next_turn` for
an in-vocabulary guess (whose matrix row is the one of the guess's
first vocabulary index). -/
def filteredIndices (s : WordleSolver) (guess : List Nat) (feedback : Nat) :
    List Nat :=
  s.candidate_indices.filter
    (fun ti => decide (matrixEntry s.words (s.words.indexOf guess) ti
      = feedback % 256))

/-- The successor state committed by `next_turn`'s success path: the
filtered candidate indices, the word list rebuilt from them, and the
incremented attempt counter. -/
def advance (s : WordleSolver) (guess : List Nat) (feedback : Nat) :
    WordleSolver :=
  { s with
    candidate_indices := filteredIndices s guess feedback
    candidate_words :=
      (filteredIndices s guess feedback).map (fun idx => s.words.getD idx [])
    attempts := s.attempts + 1 }

/-! Concrete scenario values used by witnesses and counterexamples. -/

/-- The word "arise" as bytes. -/
def wordArise : List Nat := [97, 114, 105, 115, 101]

/-- The word "raise" as bytes. -/
def wordRaise : List Nat := [114, 97, 105, 115, 101]

/-- The word "serai" as bytes. -/
def wordSerai : List Nat := [115, 101, 114, 97, 105]

/-- The word "irate" as bytes. -/
def wordIrate : List Nat := [105, 114, 97, 116, 101]

/-- The spec's scenario vocabulary {arise, raise, serai, irate}. -/
def vocabDemo : List (List Nat) := [wordArise, wordRaise, wordSerai, wordIrate]

/-- A solver over the scenario vocabulary. -/
def solverDemo : WordleSolver := from_word_list vocabDemo

/-- The word "aaaaa" as bytes. -/
def wordAaaaa : List Nat := [97, 97, 97, 97, 97]

/-- The word "aaaab" as bytes. -/
def wordAaaab : List Nat := [97, 97, 97, 97, 98]

/-- A solver over the one-word vocabulary {aaaaa}. -/
def solverSingleton : WordleSolver := from_word_list [wordAaaaa]

/-- The state of `solverSingleton` after a winning turn
(guess aaaaa, feedback all-correct). -/
def solverAfterWin : WordleSolver := (next_turn solverSingleton wordAaaaa 242).2

/-- A solver over the two-word vocabulary {aaaaa, aaaab}; guessing
aaaaa against target aaaab yields code 80 (GGGGB), so that turn can be
applied repeatedly. -/
def solverPair : WordleSolver := from_word_list [wordAaaaa, wordAaaab]

/-- One non-winning turn on the pair vocabulary. -/
def stepPair (s : WordleSolver) : WordleSolver := (next_turn s wordAaaaa 80).2

/-- `solverPair` after five successful non-winning turns. -/
def solverPair5 : WordleSolver :=
  stepPair (stepPair (stepPair (stepPair (stepPair solverPair))))

/-- A fresh session over the scenario vocabulary. -/
def sessionDemo : GameSession :=
  { initial_solver := solverDemo, solver := solverDemo, turns := [] }

/-- `sessionDemo` after applying the spec-scenario turn
(guess raise, feedback YYGGG = 238). -/
def sessionDemo1 : GameSession := (apply_turn sessionDemo wordRaise 238).2

/-! Codec helper lemmas -/

theorem toTextLoop_length (k : Nat) : ∀ c, (toTextLoop c k).length = k := by
  induction k with
  | zero => intro c; simp [toTextLoop]
  | succ k ih => intro c; simp [toTextLoop, ih]

theorem charDigit_digitChar : ∀ d, d < 3 → charDigit (digitChar d) = some d := by
  decide

theorem charDigit_inv {b : Char} {d : Nat} (h : charDigit b = some d) :
    d < 3 ∧ digitChar d = b := by
  simp only [charDigit] at h
  split_ifs at h with h1 h2 h3 <;>
    simp only [Option.some.injEq] at h <;> subst h
  · exact ⟨by omega, h1.symm⟩
  · exact ⟨by omega, h2.symm⟩
  · exact ⟨by omega, h3.symm⟩

theorem parseLoop_pow : ∀ (s : List Char) (pow : Nat),
    parseLoop pow s = (parseLoop 1 s).map (fun c => c * pow)
  | [], pow => by simp [parseLoop]
  | b :: rest, pow => by
    simp only [parseLoop]
    cases hc : charDigit b with
    | none => simp
    | some d =>
      rw [parseLoop_pow rest (pow * 3), parseLoop_pow rest (1 * 3)]
      cases hr : parseLoop 1 rest with
      | none => simp
      | some c => simp; ring

theorem mod_three_pow_succ (c k : Nat) :
    c % 3 ^ (k + 1) = c % 3 + 3 * (c / 3 % 3 ^ k) := by
  rw [pow_succ, mul_comm (3 ^ k) 3, Nat.mod_mul]

theorem parseLoop_toText : ∀ (k c pow : Nat),
    parseLoop pow (toTextLoop c k) = some (c % 3 ^ k * pow)
  | 0, c, pow => by simp [toTextLoop, parseLoop, Nat.mod_one]
  | k + 1, c, pow => by
    simp only [toTextLoop, parseLoop]
    rw [charDigit_digitChar (c % 3) (Nat.mod_lt c (by omega)),
      parseLoop_toText k (c / 3) (pow * 3), mod_three_pow_succ]
    simp only [Option.some.injEq]
    ring

theorem toText_of_parseLoop : ∀ (s : List Char) (c : Nat),
    parseLoop 1 s = some c → toTextLoop c s.length = s
  | [], c => by
    intro h
    simp only [parseLoop, Option.some.injEq] at h
    subst h
    rfl
  | b :: rest, c => by
    intro h
    simp only [parseLoop] at h
    cases hcd : charDigit b with
    | none => rw [hcd] at h; exact absurd h (by simp)
    | some d =>
      rw [hcd, parseLoop_pow rest (1 * 3)] at h
      cases hr : parseLoop 1 rest with
      | none => rw [hr] at h; exact absurd h (by simp)
      | some v =>
        rw [hr] at h
        simp at h
        obtain ⟨hd3, hbc⟩ := charDigit_inv hcd
        have hc3 : c % 3 = d := by omega
        have hcdiv : c / 3 = v := by omega
        simp only [List.length_cons, toTextLoop, hc3, hcdiv, hbc,
          toText_of_parseLoop rest v hr]

theorem parseLoop_none_of_bad : ∀ (s : List Char) (pow : Nat) (ch : Char),
    ch ∈ s → charDigit ch = none → parseLoop pow s = none
  | [], _, _ => by intro h _; cases h
  | b :: rest, pow, ch => by
    intro hmem hbad
    rcases List.mem_cons.1 hmem with h | h
    · subst h
      simp [parseLoop, hbad]
    · simp only [parseLoop]
      cases hcd : charDigit b with
      | none => rfl
      | some d => rw [parseLoop_none_of_bad rest (pow * 3) ch h hbad]

/-- C7: the pattern-code text codec round-trips losslessly in both
directions: every code in [0,243) parses back from its rendering, every
string that parses renders back to itself (hence every 5-character
G/Y/B string round-trips), and `parse_results_code` rejects every
string of length other than 5 or containing a character other than
G, Y, B. -/
theorem pattern_code_round_trip :
    (∀ c, c < 243 → parse_results_code (results_code_to_string c) = some c)
    ∧ (∀ s c, parse_results_code s = some c → results_code_to_string c = s)
    ∧ (∀ s : List Char, (s.length ≠ 5 ∨ ∃ ch ∈ s, charDigit ch = none) →
        parse_results_code s = none) := by
  refine ⟨?_, ?_, ?_⟩
  · intro c hc
    have h5 : (toTextLoop c 5).length = 5 := toTextLoop_length 5 c
    simp only [results_code_to_string, parse_results_code]
    rw [if_pos h5, parseLoop_toText 5 c 1]
    have hmod : c % 3 ^ 5 = c := Nat.mod_eq_of_lt (by norm_num; omega)
    rw [hmod, Nat.mul_one]
  · intro s c h
    simp only [parse_results_code] at h
    by_cases hlen : s.length = 5
    · rw [if_pos hlen] at h
      have := toText_of_parseLoop s c h
      rw [hlen] at this
      exact this
    · rw [if_neg hlen] at h; cases h
  · intro s h
    simp only [parse_results_code]
    by_cases hlen : s.length = 5
    · rw [if_pos hlen]
      rcases h with h | ⟨ch, hmem, hbad⟩
      · exact absurd hlen h
      · exact parseLoop_none_of_bad s 1 ch hmem hbad
    · rw [if_neg hlen]

/-- Witness for C7 at concrete inputs: code 238 renders to YYGGG and
parses back, and the string GYBBG parses to 167 and renders back. -/
theorem pattern_code_round_trip_witness :
    (parse_results_code (results_code_to_string 238) = some 238
      ∧ results_code_to_string 238 = ['Y', 'Y', 'G', 'G', 'G'])
    ∧ (parse_results_code ['G', 'Y', 'B', 'B', 'G'] = some 167
      ∧ results_code_to_string 167 = ['G', 'Y', 'B', 'B', 'G'])
    ∧ parse_results_code ['G', 'Y', 'B', 'B'] = none := by
  refine ⟨⟨pattern_code_round_trip.1 238 (by norm_num), by decide⟩,
    ⟨by decide, pattern_code_round_trip.2.1 ['G', 'Y', 'B', 'B', 'G'] 167 (by decide)⟩,
    pattern_code_round_trip.2.2 ['G', 'Y', 'B', 'B'] (Or.inl (by decide))⟩
/-! Oracle structural lemmas -/

theorem passGreens_length : ∀ (g t : List Nat) (c : Nat → Nat),
    (passGreens g t c).1.length = min g.length t.length
  | [], t, c => by simp [passGreens]
  | g :: gs, [], c => by simp [passGreens]
  | g :: gs, t :: ts, c => by
    simp only [passGreens]
    split
    · simp only [List.length_cons, passGreens_length gs ts]; omega
    · simp only [List.length_cons, passGreens_length gs ts]; omega

theorem passYellows_length : ∀ (g st : List Nat) (c : Nat → Nat),
    (passYellows g st c).length = min g.length st.length
  | [], st, c => by simp [passYellows]
  | g :: gs, [], c => by simp [passYellows]
  | g :: gs, st :: sts, c => by
    simp only [passYellows]
    split
    · split <;> (simp only [List.length_cons, passYellows_length gs sts]; omega)
    · simp only [List.length_cons, passYellows_length gs sts]; omega

theorem passGreens_digits : ∀ (g t : List Nat) (c : Nat → Nat) (x : Nat),
    x ∈ (passGreens g t c).1 → x = 0 ∨ x = 2
  | [], t, c, x => by simp [passGreens]
  | g :: gs, [], c, x => by simp [passGreens]
  | g :: gs, t :: ts, c, x => by
    simp only [passGreens]
    split
    · intro hx
      rcases List.mem_cons.1 hx with h | h
      · right; exact h
      · exact passGreens_digits gs ts _ x h
    · intro hx
      rcases List.mem_cons.1 hx with h | h
      · left; exact h
      · exact passGreens_digits gs ts _ x h

theorem passYellows_digits : ∀ (g st : List Nat) (c : Nat → Nat),
    (∀ x ∈ st, x < 3) → ∀ x ∈ passYellows g st c, x < 3
  | [], st, c => by simp [passYellows]
  | g :: gs, [], c => by simp [passYellows]
  | g :: gs, st :: sts, c => by
    intro hst x hx
    have hhead : st < 3 := hst st (List.mem_cons_self st sts)
    have htail : ∀ y ∈ sts, y < 3 := fun y hy => hst y (List.mem_cons_of_mem st hy)
    simp only [passYellows] at hx
    split at hx
    · split at hx
      · rcases List.mem_cons.1 hx with h | h
        · omega
        · exact passYellows_digits gs sts _ htail x h
      · rcases List.mem_cons.1 hx with h | h
        · omega
        · exact passYellows_digits gs sts _ htail x h
    · rcases List.mem_cons.1 hx with h | h
      · subst h; exact hhead
      · exact passYellows_digits gs sts _ htail x h

theorem packBase3_add_le : ∀ (ds : List Nat) (pow : Nat), (∀ d ∈ ds, d < 3) →
    packBase3 pow ds + pow ≤ pow * 3 ^ ds.length
  | [], pow, _ => by simp [packBase3]
  | d :: ds, pow, h => by
    simp only [packBase3, List.length_cons]
    have hd : d < 3 := h d (List.mem_cons_self d ds)
    have ih := packBase3_add_le ds (pow * 3)
      (fun x hx => h x (List.mem_cons_of_mem d hx))
    have h2 : d * pow ≤ 2 * pow := Nat.mul_le_mul_right pow (by omega)
    have heq : pow * 3 ^ (ds.length + 1) = pow * 3 * 3 ^ ds.length := by ring
    rw [heq]
    linarith

theorem packBase3_pow : ∀ (ds : List Nat) (pow : Nat),
    packBase3 pow ds = pow * packBase3 1 ds
  | [], pow => by simp [packBase3]
  | d :: ds, pow => by
    simp only [packBase3]
    rw [packBase3_pow ds (pow * 3), packBase3_pow ds (1 * 3)]
    ring

theorem packBase3_digit : ∀ (ds : List Nat) (i : Nat), (∀ d ∈ ds, d < 3) →
    packBase3 1 ds / 3 ^ i % 3 = ds.getD i 0
  | [], i, _ => by simp [packBase3]
  | d :: ds, i, h => by
    have hd : d < 3 := h d (List.mem_cons_self d ds)
    have hds : ∀ x ∈ ds, x < 3 := fun x hx => h x (List.mem_cons_of_mem d hx)
    have hcons : packBase3 1 (d :: ds) = d + 3 * packBase3 1 ds := by
      simp only [packBase3]
      rw [packBase3_pow ds (1 * 3)]
      ring
    cases i with
    | zero =>
      rw [hcons]
      simp only [pow_zero, Nat.div_one, List.getD_cons_zero]
      omega
    | succ i =>
      rw [hcons]
      have hdiv : (d + 3 * packBase3 1 ds) / 3 = packBase3 1 ds := by omega
      rw [pow_succ, mul_comm (3 ^ i) 3, ← Nat.div_div_eq_div_mul, hdiv]
      simp only [List.getD_cons_succ]
      exact packBase3_digit ds i hds

theorem simulate_digits (g t : List Nat) :
    ∀ x ∈ passYellows g (passGreens g t (countsInit t)).1
      (passGreens g t (countsInit t)).2, x < 3 :=
  passYellows_digits g _ _
    (fun x hx => by rcases passGreens_digits g t _ x hx with h | h <;> omega)

theorem simulate_state_length (g t : List Nat) :
    (passYellows g (passGreens g t (countsInit t)).1
      (passGreens g t (countsInit t)).2).length = min g.length t.length := by
  rw [passYellows_length, passGreens_length]
  omega

theorem simulate_lt_243 (g t : List Nat) (h5 : g.length ≤ 5 ∨ t.length ≤ 5) :
    simulate_results_code g t < 243 := by
  have hlen := simulate_state_length g t
  have hdig := simulate_digits g t
  have hb := packBase3_add_le _ 1 hdig
  rw [hlen] at hb
  have hm : min g.length t.length ≤ 5 := by omega
  have hpow : (3 : Nat) ^ min g.length t.length ≤ 3 ^ 5 :=
    Nat.pow_le_pow_right (by omega) hm
  simp only [simulate_results_code]
  omega

theorem passGreens_get : ∀ (g t : List Nat) (c : Nat → Nat) (i : Nat),
    ((passGreens g t c).1.getD i 0 = 2) ↔
      (i < g.length ∧ i < t.length ∧ g.getD i 0 = t.getD i 0)
  | [], t, c, i => by simp [passGreens]
  | g :: gs, [], c, i => by simp [passGreens]
  | g :: gs, t :: ts, c, i => by
    simp only [passGreens]
    split
    · cases i with
      | zero => simpa using by omega
      | succ i =>
        simp only [List.getD_cons_succ, List.length_cons, passGreens_get gs ts]
        omega
    · cases i with
      | zero =>
        next hne =>
        simp only [List.getD_cons_zero, List.length_cons]
        constructor
        · omega
        · intro hh
          exact absurd hh.2.2 hne
      | succ i =>
        simp only [List.getD_cons_succ, List.length_cons, passGreens_get gs ts]
        omega

theorem passYellows_get_two : ∀ (g st : List Nat) (c : Nat → Nat) (i : Nat),
    ((passYellows g st c).getD i 0 = 2) ↔ (i < g.length ∧ st.getD i 0 = 2)
  | [], st, c, i => by simp [passYellows]
  | g :: gs, [], c, i => by
    cases i <;> simp [passYellows]
  | g :: gs, st :: sts, c, i => by
    simp only [passYellows]
    split
    · next h0 =>
      split
      · cases i with
        | zero => simp [h0]
        | succ i =>
          simp only [List.getD_cons_succ, List.length_cons, passYellows_get_two gs sts]
          omega
      · cases i with
        | zero => simp [h0]
        | succ i =>
          simp only [List.getD_cons_succ, List.length_cons, passYellows_get_two gs sts]
          omega
    · cases i with
      | zero => simp
      | succ i =>
        simp only [List.getD_cons_succ, List.length_cons, passYellows_get_two gs sts]
        omega

theorem simulate_green_digit (g t : List Nat) (hg : g.length = 5)
    (ht : t.length = 5) (i : Nat) (hi : i < 5) :
    (simulate_results_code g t / 3 ^ i % 3 = 2 ↔ g.getD i 0 = t.getD i 0) := by
  simp only [simulate_results_code]
  rw [packBase3_digit _ i (simulate_digits g t), passYellows_get_two, passGreens_get]
  rw [hg, ht]
  omega

/-- C3: the oracle is a pure function implementing the two-pass
duplicate-aware algorithm: a position's feedback digit is "correct"
(2) exactly when guess and target agree there — greens are decided in
pass 1, before any yellow assignment, consuming the target multiset —
and on the concrete duplicate-letter example the oracle result for
guess "allee" against target "apple" is the code of the pattern
string "GYBBG". -/
theorem oracle_green_pass_and_example (g t : List Nat)
    (hg : g.length = 5) (ht : t.length = 5) :
    (∀ i, i < 5 →
      (simulate_results_code g t / 3 ^ i % 3 = 2 ↔ g.getD i 0 = t.getD i 0))
    ∧ parse_results_code ['G', 'Y', 'B', 'B', 'G']
        = some (simulate_results_code [97, 108, 108, 101, 101]
            [97, 112, 112, 108, 101]) :=
  ⟨fun i hi => simulate_green_digit g t hg ht i hi, by decide⟩

/-- Witness for C3: instantiated at guess "allee", target "apple",
position 4, where both words end in `e` and the oracle digit is 2. -/
theorem oracle_green_pass_witness :
    (simulate_results_code [97, 108, 108, 101, 101] [97, 112, 112, 108, 101]
        / 3 ^ 4 % 3 = 2
      ↔ List.getD [97, 108, 108, 101, 101] 4 0
          = List.getD [97, 112, 112, 108, 101] 4 0) :=
  (oracle_green_pass_and_example [97, 108, 108, 101, 101]
    [97, 112, 112, 108, 101] (by decide) (by decide)).1 4 (by decide)

/-! All-green lemmas for C10 -/

theorem passGreens_self : ∀ (g : List Nat) (c : Nat → Nat),
    (passGreens g g c).1 = List.replicate g.length 2
  | [], c => by simp [passGreens]
  | g :: gs, c => by
    simp [passGreens, passGreens_self gs, List.replicate_succ]

theorem passYellows_replicate_two : ∀ (g : List Nat) (n : Nat) (c : Nat → Nat),
    passYellows g (List.replicate n 2) c = List.replicate (min g.length n) 2
  | [], n, c => by simp [passYellows]
  | g :: gs, 0, c => by simp [passYellows]
  | g :: gs, n + 1, c => by
    simp only [List.replicate_succ, passYellows, passYellows_replicate_two gs n,
      List.length_cons]
    norm_num
    rw [Nat.min_def, Nat.min_def]
    split <;> split <;> first | rfl | omega

theorem simulate_self (g : List Nat) (h5 : g.length = 5) :
    simulate_results_code g g = 242 := by
  simp only [simulate_results_code, passGreens_self, passYellows_replicate_two,
    h5, Nat.min_self]
  decide

theorem simulate_eq_allgreen_iff (g t : List Nat) (hg : g.length = 5)
    (ht : t.length = 5) : simulate_results_code g t = 242 ↔ g = t := by
  constructor
  · intro h
    have hget : ∀ i, i < 5 → g.getD i 0 = t.getD i 0 := by
      intro i hi
      have := (simulate_green_digit g t hg ht i hi).1
      rw [h] at this
      apply this
      interval_cases i <;> norm_num
    apply List.ext_getElem (by omega)
    intro i h1 h2
    have hgi := hget i (by omega)
    rwa [List.getD_eq_getElem, List.getD_eq_getElem] at hgi <;> omega
  · intro h
    subst h
    exact simulate_self g hg

/-! Engine shape lemmas: the four disjoint outcomes of `next_turn`. -/

theorem pattern_buckets_eq : PATTERN_BUCKETS = 243 := by
  norm_num [PATTERN_BUCKETS]

theorem next_turn_invalid (s : WordleSolver) (guess : List Nat) (feedback : Nat)
    (hf : 243 ≤ feedback) :
    next_turn s guess feedback
      = (Except.error SolverError.InvalidResultsPattern, s) := by
  rw [next_turn, if_pos (by rw [pattern_buckets_eq]; exact hf)]

theorem next_turn_notinlist (s : WordleSolver) (guess : List Nat) (feedback : Nat)
    (hf : feedback < 243) (hg : guess ∉ s.words) :
    next_turn s guess feedback
      = (Except.error (SolverError.GuessNotInWordList guess), s) := by
  rw [next_turn, if_neg (by rw [pattern_buckets_eq]; omega)]
  have hw : wordIndex s.words guess = none := by rw [wordIndex, if_neg hg]
  rw [hw]

theorem next_turn_inconsistent (s : WordleSolver) (guess : List Nat)
    (feedback : Nat) (hf : feedback < 243) (hg : guess ∈ s.words)
    (hemp : filteredIndices s guess feedback = []) :
    next_turn s guess feedback
      = (Except.error SolverError.InconsistentFeedback, s) := by
  rw [next_turn, if_neg (by rw [pattern_buckets_eq]; omega)]
  have hw : wordIndex s.words guess = some (s.words.indexOf guess) := by
    rw [wordIndex, if_pos hg]
  rw [hw]
  simp only [filteredIndices] at hemp
  simp [hemp]

theorem next_turn_success (s : WordleSolver) (guess : List Nat)
    (feedback : Nat) (hf : feedback < 243) (hg : guess ∈ s.words)
    (hne : filteredIndices s guess feedback ≠ []) :
    next_turn s guess feedback
      = (Except.ok (check_game_status (advance s guess feedback) feedback),
         advance s guess feedback) := by
  rw [next_turn, if_neg (by rw [pattern_buckets_eq]; omega)]
  have hw : wordIndex s.words guess = some (s.words.indexOf guess) := by
    rw [wordIndex, if_pos hg]
  rw [hw]
  simp only [filteredIndices] at hne
  simp only [advance, filteredIndices]
  rw [if_neg hne]

theorem next_turn_ok_inv {s : WordleSolver} {guess : List Nat} {feedback : Nat}
    {st : GameStatus} {s1 : WordleSolver}
    (hok : next_turn s guess feedback = (Except.ok st, s1)) :
    feedback < 243 ∧ guess ∈ s.words ∧ filteredIndices s guess feedback ≠ []
    ∧ s1 = advance s guess feedback
    ∧ st = check_game_status (advance s guess feedback) feedback := by
  by_cases hf : feedback < 243
  · by_cases hg : guess ∈ s.words
    · by_cases hne : filteredIndices s guess feedback = []
      · rw [next_turn_inconsistent s guess feedback hf hg hne] at hok
        exact absurd hok (by simp)
      · rw [next_turn_success s guess feedback hf hg hne] at hok
        simp only [Prod.mk.injEq, Except.ok.injEq] at hok
        exact ⟨hf, hg, hne, hok.2.symm, hok.1.symm⟩
    · rw [next_turn_notinlist s guess feedback hf hg] at hok
      exact absurd hok (by simp)
  · rw [next_turn_invalid s guess feedback (by omega)] at hok
    exact absurd hok (by simp)

/-- C2: `next_turn` is all-or-nothing.  The error returned is
`InvalidResultsPattern` exactly when the feedback is out of [0,243);
otherwise `GuessNotInWordList` exactly when the guess is not in the
vocabulary; otherwise `InconsistentFeedback` exactly when no current
candidate's matrix entry for the guess equals the feedback; and on any
error the solver state — and, through `apply_turn`, the session's
solver and turn log — is unchanged. -/
theorem next_turn_all_or_nothing (s : WordleSolver) (guess : List Nat)
    (feedback : Nat) :
    ((next_turn s guess feedback).1
        = Except.error SolverError.InvalidResultsPattern ↔ 243 ≤ feedback)
    ∧ ((next_turn s guess feedback).1
        = Except.error (SolverError.GuessNotInWordList guess) ↔
          feedback < 243 ∧ guess ∉ s.words)
    ∧ ((next_turn s guess feedback).1
        = Except.error SolverError.InconsistentFeedback ↔
          feedback < 243 ∧ guess ∈ s.words ∧
            ∀ ti ∈ s.candidate_indices,
              matrixEntry s.words (s.words.indexOf guess) ti ≠ feedback % 256)
    ∧ (∀ e, (next_turn s guess feedback).1 = Except.error e →
        (next_turn s guess feedback).2 = s)
    ∧ (∀ gs : GameSession, gs.solver = s →
        ∀ e, (apply_turn gs guess feedback).1 = Except.error e →
          (apply_turn gs guess feedback).2 = gs) := by
  have hfilter : filteredIndices s guess feedback = [] ↔
      ∀ ti ∈ s.candidate_indices,
        matrixEntry s.words (s.words.indexOf guess) ti ≠ feedback % 256 := by
    rw [filteredIndices, List.filter_eq_nil_iff]
    simp
  by_cases hf : feedback < 243
  · by_cases hg : guess ∈ s.words
    · by_cases hne : filteredIndices s guess feedback = []
      · rw [next_turn_inconsistent s guess feedback hf hg hne]
        refine ⟨by simp; omega, by simp [hg], ⟨fun _ => ⟨hf, hg, hfilter.1 hne⟩, fun _ => rfl⟩,
          fun e _ => rfl, ?_⟩
        intro gs hgs e _
        rw [apply_turn, hgs, next_turn_inconsistent s guess feedback hf hg hne, ← hgs]
      · rw [next_turn_success s guess feedback hf hg hne]
        refine ⟨by simp; omega, by simp [hg], ?_, by simp, ?_⟩
        · simp only [Except.ok.injEq]  -- placeholder adjust
          constructor
          · intro h; exact absurd h (by simp)
          · intro h; exact absurd (hfilter.2 h.2.2) hne
        · intro gs hgs e
          rw [apply_turn, hgs, next_turn_success s guess feedback hf hg hne]
          intro h
          exact absurd h (by simp)
    · rw [next_turn_notinlist s guess feedback hf hg]
      refine ⟨by simp; omega, by simp [hf, hg], ?_, fun e _ => rfl, ?_⟩
      · constructor
        · intro h; exact absurd h (by simp)
        · intro h; exact absurd hg (by simp [h.2.1])
      · intro gs hgs e _
        rw [apply_turn, hgs, next_turn_notinlist s guess feedback hf hg, ← hgs]
  · rw [next_turn_invalid s guess feedback (by omega)]
    refine ⟨by simp; omega, by simp; omega, by simp; omega, fun e _ => rfl, ?_⟩
    intro gs hgs e _
    rw [apply_turn, hgs, next_turn_invalid s guess feedback (by omega), ← hgs]

/-- Witness for C2: on the scenario solver, feedback 243 is rejected
as `InvalidResultsPattern`, feedback 0 (BBBBB) for guess raise is
rejected as `InconsistentFeedback`, and both the solver and a session
wrapping it are left unchanged. -/
theorem next_turn_all_or_nothing_witness :
    (next_turn solverDemo wordRaise 243).1
        = Except.error SolverError.InvalidResultsPattern
    ∧ (next_turn solverDemo wordRaise 0).2 = solverDemo
    ∧ (apply_turn sessionDemo wordRaise 0).2 = sessionDemo := by
  have h243 := next_turn_all_or_nothing solverDemo wordRaise 243
  have h0 := next_turn_all_or_nothing solverDemo wordRaise 0
  exact ⟨h243.1.mpr (by norm_num),
    h0.2.2.2.1 SolverError.InconsistentFeedback (by decide),
    h0.2.2.2.2 sessionDemo rfl SolverError.InconsistentFeedback (by decide)⟩

/-! Lemmas for filtering correctness -/

theorem map_filter_comm {α β : Type} (f : α → β) (p : β → Bool) :
    ∀ l : List α, (l.filter (fun a => p (f a))).map f = (l.map f).filter p
  | [] => rfl
  | a :: l => by
    simp only [List.filter_cons, List.map_cons]
    cases hpa : p (f a) <;> simp [map_filter_comm f p l, hpa]

theorem indexOf_mem_getD : ∀ (words : List (List Nat)) (w : List Nat),
    w ∈ words →
    words.indexOf w < words.length ∧ words.getD (words.indexOf w) [] = w
  | [], w, h => absurd h (List.not_mem_nil w)
  | a :: l, w, h => by
    rw [List.indexOf_cons]
    by_cases hw : a = w
    · subst hw
      simp
    · have hbeq : (a == w) = false := beq_eq_false_iff_ne.2 hw
      rw [hbeq, cond_false]
      have h2 : w ∈ l := by
        rcases List.mem_cons.1 h with h1 | h1
        · exact absurd h1.symm hw
        · exact h1
      obtain ⟨ih1, ih2⟩ := indexOf_mem_getD l w h2
      refine ⟨by simpa using ih1, by simpa using ih2⟩

theorem getD_indexOf {words : List (List Nat)} {w : List Nat} (hw : w ∈ words) :
    words.getD (words.indexOf w) [] = w :=
  (indexOf_mem_getD words w hw).2

theorem matrixEntry_eq_oracle (words : List (List Nat)) (gi ti : Nat)
    (hgi : (words.getD gi []).length ≤ 5) :
    matrixEntry words gi ti
      = simulate_results_code (words.getD gi []) (words.getD ti []) := by
  rw [matrixEntry]
  exact Nat.mod_eq_of_lt
    (lt_of_lt_of_le (simulate_lt_243 _ _ (Or.inl hgi)) (by norm_num))

/-- C1: a successful `next_turn` filters exactly by the oracle: the
new candidate words are precisely the previous candidate words whose
oracle code for the guess equals the feedback (every survivor
satisfies the equation, every violator is removed), and the pattern
matrix entry used for filtering agrees with the oracle on every
(guess, target) pair of vocabulary indices. -/
theorem next_turn_filter_correct (s : WordleSolver) (guess : List Nat)
    (feedback : Nat) (st : GameStatus) (s1 : WordleSolver)
    (hlen : ∀ w ∈ s.words, w.length = 5)
    (hinv : s.candidate_words
      = s.candidate_indices.map (fun i => s.words.getD i []))
    (hok : next_turn s guess feedback = (Except.ok st, s1)) :
    s1.candidate_words
      = s.candidate_words.filter
          (fun w => decide (simulate_results_code guess w = feedback))
    ∧ (∀ w ∈ s1.candidate_words, simulate_results_code guess w = feedback)
    ∧ (∀ w ∈ s.candidate_words,
        simulate_results_code guess w ≠ feedback → w ∉ s1.candidate_words)
    ∧ (∀ gi ti, gi < s.words.length → ti < s.words.length →
        matrixEntry s.words gi ti
          = simulate_results_code (s.words.getD gi []) (s.words.getD ti [])) := by
  obtain ⟨hf, hg, hne, hs1, hst⟩ := next_turn_ok_inv hok
  have hg5 : guess.length = 5 := hlen guess hg
  have hidx : s.words.getD (s.words.indexOf guess) [] = guess := getD_indexOf hg
  have hmod : feedback % 256 = feedback := Nat.mod_eq_of_lt (by omega)
  have hpred : (fun ti => decide (matrixEntry s.words (s.words.indexOf guess) ti
        = feedback % 256))
      = fun ti => decide (simulate_results_code guess (s.words.getD ti []) = feedback) := by
    funext ti
    rw [matrixEntry_eq_oracle s.words _ ti (by rw [hidx, hg5]), hidx, hmod]
  have hmain : s1.candidate_words
      = s.candidate_words.filter
          (fun w => decide (simulate_results_code guess w = feedback)) := by
    rw [hs1]
    show (filteredIndices s guess feedback).map (fun idx => s.words.getD idx [])
      = _
    rw [filteredIndices, hpred, hinv,
      map_filter_comm (fun i => s.words.getD i [])
        (fun w => decide (simulate_results_code guess w = feedback))
        s.candidate_indices]
  refine ⟨hmain, ?_, ?_, ?_⟩
  · intro w hw
    rw [hmain] at hw
    simpa using (List.mem_filter.1 hw).2
  · intro w _ hneq hmem
    rw [hmain] at hmem
    exact hneq (by simpa using (List.mem_filter.1 hmem).2)
  · intro gi ti hgi hti
    apply matrixEntry_eq_oracle
    rw [List.getD_eq_getElem s.words [] hgi]
    exact le_of_eq (hlen _ (List.getElem_mem hgi))

/-- Witness for C1: the spec scenario — vocabulary
{arise, raise, serai, irate}, guess raise, feedback YYGGG (238) —
leaves exactly the candidates whose oracle code is 238, namely
{arise}. -/
theorem next_turn_filter_correct_witness :
    (next_turn solverDemo wordRaise 238).2.candidate_words
        = solverDemo.candidate_words.filter
            (fun w => decide (simulate_results_code wordRaise w = 238))
    ∧ (next_turn solverDemo wordRaise 238).2.candidate_words = [wordArise] := by
  have h := next_turn_filter_correct solverDemo wordRaise 238 GameStatus.Ongoing
    ((next_turn solverDemo wordRaise 238).2) (by decide) (by decide) (by decide)
  exact ⟨h.1, by decide⟩

/-- C5: status classification of a successful turn with the standard
maximum of 6 attempts.  The status is Won exactly when the feedback is
the all-correct code 242, regardless of how many attempts remain; and
within a normal game (at most 6 turns, i.e. fewer than 6 attempts
before the call) a non-winning successful turn is Lost exactly when it
is the 6th successfully applied turn, and Ongoing exactly on turns 1
through 5. -/
theorem status_classification (s : WordleSolver) (guess : List Nat)
    (feedback : Nat) (st : GameStatus) (s1 : WordleSolver)
    (hmax : s.max_attempts = 6)
    (hok : next_turn s guess feedback = (Except.ok st, s1)) :
    (st = GameStatus.Won ↔ feedback = 242)
    ∧ (s.attempts < 6 →
        ((st = GameStatus.Lost ↔ (feedback ≠ 242 ∧ s1.attempts = 6))
        ∧ (st = GameStatus.Ongoing ↔ (feedback ≠ 242 ∧ s1.attempts < 6)))) := by
  obtain ⟨hf, hg, hne, hs1, hst⟩ := next_turn_ok_inv hok
  have hatt : s1.attempts = s.attempts + 1 := by rw [hs1]; rfl
  rw [hst, check_game_status, ALL_GREEN_CODE]
  have hm : (advance s guess feedback).max_attempts = 6 := hmax
  have ha : (advance s guess feedback).attempts = s.attempts + 1 := rfl
  rw [hm, ha]
  by_cases h242 : feedback = 242
  · rw [if_pos h242]
    refine ⟨by simp [h242], fun hlt => ⟨by simp [h242], by simp [h242]⟩⟩
  · rw [if_neg h242]
    by_cases hlost : 6 ≤ s.attempts + 1
    · rw [if_pos hlost]
      exact ⟨by simp [h242], fun hlt => ⟨by simp [h242]; omega, by simp; omega⟩⟩
    · rw [if_neg hlost]
      exact ⟨by simp [h242], fun hlt => ⟨by simp; omega, by simp [h242]; omega⟩⟩

/-- Witness for C5: on the pair vocabulary after five successful
non-winning turns, the 6th successful turn with non-all-correct
feedback (code 80) is classified Lost. -/
theorem status_classification_witness :
    GameStatus.Lost = GameStatus.Lost ↔
      ((80 : Nat) ≠ 242 ∧ (stepPair solverPair5).attempts = 6) := by
  have h := status_classification solverPair5 wordAaaaa 80 GameStatus.Lost
    (stepPair solverPair5) (by decide) (by decide)
  exact (h.2 (by decide)).1

/-- C4 counterexample: Won is not terminal for the engine.  On the
one-word vocabulary, the turn (aaaaa, all-correct) returns Won; a
second identical `next_turn` call on the resulting solver is accepted
again (returning Won) and changes the observable state (the attempt
counter increments from 1 to 2). -/
theorem not_terminal_after_won :
    (next_turn solverSingleton wordAaaaa 242).1 = Except.ok GameStatus.Won
    ∧ (next_turn solverAfterWin wordAaaaa 242).1 = Except.ok GameStatus.Won
    ∧ (next_turn solverAfterWin wordAaaaa 242).2 ≠ solverAfterWin
    ∧ (next_turn solverAfterWin wordAaaaa 242).2.attempts = 2 := by
  exact ⟨by decide, by decide, by decide, by decide⟩

/-- C4 amended: the engine stores no terminal status and `next_turn`
applies no terminal guard — on every state, including one whose
previous turn returned Won or Lost, a call with in-range feedback, an
in-vocabulary guess and at least one matching candidate is accepted
and mutates the state, incrementing the attempt counter; stopping
after Won/Lost is left to the caller. -/
theorem next_turn_no_terminal_guard (s : WordleSolver) (guess : List Nat)
    (feedback : Nat) (hf : feedback < 243) (hg : guess ∈ s.words)
    (hne : filteredIndices s guess feedback ≠ []) :
    ∃ st, next_turn s guess feedback = (Except.ok st, advance s guess feedback)
      ∧ (advance s guess feedback).attempts = s.attempts + 1 :=
  ⟨check_game_status (advance s guess feedback) feedback,
    next_turn_success s guess feedback hf hg hne, rfl⟩

/-- Witness for C4's amended claim, instantiated at the post-Won state
`solverAfterWin`. -/
theorem next_turn_no_terminal_guard_witness :
    ∃ st, next_turn solverAfterWin wordAaaaa 242
        = (Except.ok st, advance solverAfterWin wordAaaaa 242)
      ∧ (advance solverAfterWin wordAaaaa 242).attempts
          = solverAfterWin.attempts + 1 :=
  next_turn_no_terminal_guard solverAfterWin wordAaaaa 242 (by norm_num)
    (by decide) (by decide)

/-! Lemmas for the Won-singleton property -/

theorem filter_eq_self_singleton {l : List Nat} {a : Nat} (hnd : l.Nodup)
    (ha : a ∈ l) : l.filter (fun x => decide (x = a)) = [a] := by
  induction l with
  | nil => cases ha
  | cons b l ih =>
    have hbl : b ∉ l := (List.nodup_cons.1 hnd).1
    have hndl : l.Nodup := (List.nodup_cons.1 hnd).2
    rcases List.mem_cons.1 ha with h | h
    · subst h
      rw [List.filter_cons, if_pos (by simp)]
      rw [List.filter_eq_nil_iff.2 (fun x hx => by
        simp only [decide_eq_true_eq]
        intro hxb
        exact hbl (hxb ▸ hx))]
    · have hba : b ≠ a := fun hb => hbl (hb ▸ h)
      rw [List.filter_cons, if_neg (by simpa using hba)]
      exact ih hndl h

/-- C10: the oracle yields the all-correct code 242 exactly for a
guess equal to the target, and consequently a successful turn with
all-correct feedback returns Won and leaves the candidate set equal to
the singleton containing the guessed word. -/
theorem allgreen_iff_eq_and_won_singleton (s : WordleSolver)
    (guess : List Nat) (st : GameStatus) (s1 : WordleSolver)
    (hlen : ∀ w ∈ s.words, w.length = 5)
    (hnd : s.words.Nodup)
    (hbound : ∀ i ∈ s.candidate_indices, i < s.words.length)
    (hcnd : s.candidate_indices.Nodup)
    (hok : next_turn s guess 242 = (Except.ok st, s1)) :
    (∀ g t : List Nat, g.length = 5 → t.length = 5 →
      (simulate_results_code g t = 242 ↔ g = t))
    ∧ st = GameStatus.Won
    ∧ s1.candidate_words = [guess] := by
  obtain ⟨hf, hg, hne, hs1, hst⟩ := next_turn_ok_inv hok
  have hg5 : guess.length = 5 := hlen guess hg
  have hidx : s.words.getD (s.words.indexOf guess) [] = guess := getD_indexOf hg
  have hidxlt : s.words.indexOf guess < s.words.length :=
    (indexOf_mem_getD s.words guess hg).1
  have hpred : ∀ ti ∈ s.candidate_indices,
      (decide (matrixEntry s.words (s.words.indexOf guess) ti = 242 % 256))
        = decide (ti = s.words.indexOf guess) := by
    intro ti hti
    have htilt : ti < s.words.length := hbound ti hti
    have ht5 : (s.words.getD ti []).length = 5 := by
      rw [List.getD_eq_getElem s.words [] htilt]
      exact hlen _ (List.getElem_mem htilt)
    rw [matrixEntry_eq_oracle s.words _ ti (by rw [hidx, hg5]), hidx]
    have h242 : (242 : Nat) % 256 = 242 := by norm_num
    rw [h242]
    have hiff : simulate_results_code guess (s.words.getD ti []) = 242
        ↔ ti = s.words.indexOf guess := by
      rw [simulate_eq_allgreen_iff guess (s.words.getD ti []) hg5 ht5]
      constructor
      · intro heq
        have hgg : s.words.getD ti [] = s.words.getD (s.words.indexOf guess) [] := by
          rw [hidx]
          exact heq.symm
        rw [List.getD_eq_getElem s.words [] htilt,
          List.getD_eq_getElem s.words [] hidxlt] at hgg
        exact (List.Nodup.getElem_inj_iff hnd).1 hgg
      · intro heq
        rw [heq, hidx]
    exact decide_eq_decide.2 hiff
  have hne2 : s.candidate_indices.filter
      (fun ti => decide (ti = s.words.indexOf guess)) ≠ [] := by
    rw [filteredIndices, List.filter_congr hpred] at hne
    exact hne
  have hmem : s.words.indexOf guess ∈ s.candidate_indices := by
    obtain ⟨x, hx⟩ := List.exists_mem_of_ne_nil _ hne2
    obtain ⟨hx1, hx2⟩ := List.mem_filter.1 hx
    simp only [decide_eq_true_eq] at hx2
    rwa [hx2] at hx1
  have hfilteq : filteredIndices s guess 242 = [s.words.indexOf guess] := by
    rw [filteredIndices, List.filter_congr hpred]
    exact filter_eq_self_singleton hcnd hmem
  refine ⟨fun g t hg' ht' => simulate_eq_allgreen_iff g t hg' ht', ?_, ?_⟩
  · rw [hst, check_game_status,
      if_pos (show (242 : Nat) = ALL_GREEN_CODE by rw [ALL_GREEN_CODE])]
  · rw [hs1]
    show (filteredIndices s guess 242).map (fun idx => s.words.getD idx []) = _
    rw [hfilteq, List.map_cons, List.map_nil, hidx]

/-- Witness for C10: on the one-word vocabulary, the winning turn
(aaaaa, 242) leaves candidate words exactly [aaaaa]. -/
theorem allgreen_iff_eq_and_won_singleton_witness :
    GameStatus.Won = GameStatus.Won
    ∧ (next_turn solverSingleton wordAaaaa 242).2.candidate_words
        = [wordAaaaa] := by
  have h := allgreen_iff_eq_and_won_singleton solverSingleton wordAaaaa
    GameStatus.Won ((next_turn solverSingleton wordAaaaa 242).2)
    (by decide) (by decide) (by decide) (by decide) (by decide)
  exact ⟨h.2.1, h.2.2⟩

/-! Replay lemmas for undo -/

theorem replayList_append_ok : ∀ (init : WordleSolver) (ts : List Turn)
    (t : Turn) (cur : WordleSolver),
    replayList init (ts ++ [t]) = Except.ok cur →
    ∃ prev st, replayList init ts = Except.ok prev
      ∧ next_turn prev t.guess t.feedback = (Except.ok st, cur)
  | init, [], t, cur => by
    intro h
    simp only [List.nil_append, replayList] at h
    refine ⟨init, ?_⟩
    cases hnt : next_turn init t.guess t.feedback with
    | mk r s1 =>
      rw [hnt] at h
      cases r with
      | error e => exact absurd h (by simp)
      | ok st =>
        simp only [replayList, Except.ok.injEq] at h
        exact ⟨st, rfl, by rw [h]⟩
  | init, u :: ts, t, cur => by
    intro h
    simp only [List.cons_append, replayList] at h
    cases hnt : next_turn init u.guess u.feedback with
    | mk r s1 =>
      rw [hnt] at h
      cases r with
      | error e => exact absurd h (by simp)
      | ok st =>
        obtain ⟨prev, st2, h1, h2⟩ := replayList_append_ok s1 ts t cur h
        exact ⟨prev, st2, by rw [replayList, hnt]; exact h1, h2⟩

/-- C6: on a session whose live solver is the successful replay of its
turn log T1..Tn from the pristine initial solver, `undo` with n ≥ 1
succeeds and restores the full observable session state — initial
solver, live solver and turn log — to exactly the state after
T1..T(n−1) (the fresh initial state when n = 1, since replaying the
empty log returns the initial solver); on an empty log `undo` reports
false and changes nothing. -/
theorem undo_restores (init cur : WordleSolver) (ts : List Turn)
    (hw : replayList init ts = Except.ok cur) :
    (ts = [] → undo ⟨init, cur, ts⟩ = (false, ⟨init, cur, ts⟩))
    ∧ (ts ≠ [] → ∃ prev, replayList init ts.dropLast = Except.ok prev
        ∧ undo ⟨init, cur, ts⟩ = (true, ⟨init, prev, ts.dropLast⟩)) := by
  constructor
  · intro h
    subst h
    rfl
  · intro h
    have hdecomp : ts.dropLast ++ [ts.getLast h] = ts :=
      List.dropLast_append_getLast h
    obtain ⟨prev, st, h1, h2⟩ := replayList_append_ok init ts.dropLast
      (ts.getLast h) cur (by rw [hdecomp]; exact hw)
    refine ⟨prev, h1, ?_⟩
    rw [undo]
    rw [List.getLast?_eq_getLast ts h]
    simp only
    have hrt : replay_turns ⟨init, cur, ts.dropLast⟩ = Except.ok prev := h1
    rw [hrt]

/-- Witness for C6: applying the scenario turn (raise, 238) and then
undoing restores the freshly constructed session over the scenario
vocabulary. -/
theorem undo_restores_witness :
    ∃ prev, replayList solverDemo ([⟨wordRaise, 238⟩] : List Turn).dropLast
        = Except.ok prev
      ∧ undo ⟨solverDemo, (next_turn solverDemo wordRaise 238).2,
            [⟨wordRaise, 238⟩]⟩
          = (true, ⟨solverDemo, prev, ([⟨wordRaise, 238⟩] : List Turn).dropLast⟩) :=
  (undo_restores solverDemo ((next_turn solverDemo wordRaise 238).2)
    [⟨wordRaise, 238⟩] (by decide)).2 (by decide)

/-! Comparator lemmas for `scored_guesses` -/

theorem scoredLe_trans {F : Type} [LinearOrder F] :
    ∀ a b c : List Nat × F,
      scoredLe a b = true → scoredLe b c = true → scoredLe a c = true := by
  intro a b c hab hbc
  simp only [scoredLe, decide_eq_true_eq] at hab hbc ⊢
  rcases hab with h1 | ⟨h1, h1w⟩ <;> rcases hbc with h2 | ⟨h2, h2w⟩
  · exact Or.inl (lt_trans h2 h1)
  · exact Or.inl (h2 ▸ h1)
  · exact Or.inl (lt_of_lt_of_eq h2 h1.symm)
  · exact Or.inr ⟨h1.trans h2, le_trans h1w h2w⟩

theorem scoredLe_total {F : Type} [LinearOrder F] :
    ∀ a b : List Nat × F, (scoredLe a b || scoredLe b a) = true := by
  intro a b
  simp only [scoredLe, Bool.or_eq_true, decide_eq_true_eq]
  rcases lt_trichotomy a.2 b.2 with h | h | h
  · exact Or.inr (Or.inl h)
  · rcases le_total a.1 b.1 with hw | hw
    · exact Or.inl (Or.inr ⟨h, hw⟩)
    · exact Or.inr (Or.inr ⟨h.symm, hw⟩)
  · exact Or.inl (Or.inl h)

/-- C8: `scored_guesses` is deterministic — as a pure function of the
solver state and scoring function, repeated calls return the identical
list — it covers exactly the current candidate words (the returned
words are a permutation of them), and it is sorted: each pair of
entries in order has strictly descending score or equal score with
words in ascending lexicographic order.  This holds for every scoring
function into every linear order, in particular the `f64` Shannon
entropy under `total_cmp`. -/
theorem scored_guesses_deterministic {F : Type} [LinearOrder F]
    (entropy : (Nat → Nat) → Nat → F) (s : WordleSolver)
    (hinv : s.candidate_words
      = s.candidate_indices.map (fun i => s.words.getD i [])) :
    scored_guesses entropy s = scored_guesses entropy s
    ∧ List.Perm ((scored_guesses entropy s).map Prod.fst) s.candidate_words
    ∧ List.Pairwise (fun a b : List Nat × F =>
        b.2 < a.2 ∨ (a.2 = b.2 ∧ a.1 ≤ b.1)) (scored_guesses entropy s) := by
  refine ⟨rfl, ?_, ?_⟩
  · have hperm := List.mergeSort_perm
      (s.candidate_indices.map (fun gi =>
        (s.words.getD gi [],
         entropy (bucketCounts s.words gi s.candidate_indices)
           s.candidate_indices.length))) scoredLe
    have hmap := hperm.map Prod.fst
    rw [List.map_map] at hmap
    rw [hinv]
    exact hmap
  · have hsorted := List.sorted_mergeSort
      (fun a b c => scoredLe_trans a b c) scoredLe_total
      (s.candidate_indices.map (fun gi =>
        (s.words.getD gi [],
         entropy (bucketCounts s.words gi s.candidate_indices)
           s.candidate_indices.length)))
    refine hsorted.imp ?_
    intro a b hab
    simpa only [scoredLe, decide_eq_true_eq] using hab

/-- Witness for C8: over the scenario solver with the constant-in-
buckets scoring function (score = number of candidates), the returned
words are a permutation of (here: exactly) the candidate words. -/
theorem scored_guesses_deterministic_witness :
    List.Perm ((scored_guesses (fun _ n => (n : Nat)) solverDemo).map Prod.fst)
      solverDemo.candidate_words :=
  (scored_guesses_deterministic (fun _ n => (n : Nat)) solverDemo
    (by decide)).2.1

/-! Load-loop lemmas -/

theorem loadLoop_firstBad : ∀ (ls : List (List Nat)) (idx : Nat)
    (acc : List (List Nat)) (i : Nat),
    List.findIdx? (fun l => (parse_word5 l).isNone) ls idx = some i →
    loadLoop ls idx acc = Except.error (LoadError.invalidWord (i + 1))
  | [], idx, acc, i => by
    intro h
    rw [show List.findIdx? (fun l => (parse_word5 l).isNone) [] idx = none
      from rfl] at h
    cases h
  | raw :: rest, idx, acc, i => by
    intro h
    rw [List.findIdx?_cons] at h
    cases hp : parse_word5 raw with
    | none =>
      rw [hp] at h
      simp at h
      subst h
      simp [loadLoop, hp]
    | some w =>
      rw [hp] at h
      simp only [Option.isNone_some, Bool.false_eq_true, if_false] at h
      simp only [loadLoop, hp]
      split
      · exact loadLoop_firstBad rest (idx + 1) acc i h
      · exact loadLoop_firstBad rest (idx + 1) _ i h

theorem loadLoop_ok : ∀ (ls : List (List Nat)) (idx : Nat)
    (acc : List (List Nat)),
    (∀ l ∈ ls, (parse_word5 l).isSome = true) →
    loadLoop ls idx acc
      = Except.ok (acc ++ (firstOccurrences (ls.filterMap parse_word5)).filter
          (fun w => decide (w ∉ acc)))
  | [], idx, acc, h => by
    simp [loadLoop, List.filterMap_nil, firstOccurrences]
  | raw :: rest, idx, acc, h => by
    have hraw := h raw (List.mem_cons_self raw rest)
    cases hp : parse_word5 raw with
    | none => rw [hp] at hraw; cases hraw
    | some w =>
      have hrest : ∀ l ∈ rest, (parse_word5 l).isSome = true :=
        fun l hl => h l (List.mem_cons_of_mem raw hl)
      have hfm : (raw :: rest).filterMap parse_word5
          = w :: rest.filterMap parse_word5 := by
        rw [List.filterMap_cons, hp]
      rw [hfm]
      simp only [loadLoop, hp]
      by_cases hw : w ∈ acc
      · rw [if_pos hw, loadLoop_ok rest (idx + 1) acc hrest]
        congr 1
        rw [firstOccurrences, List.filter_cons,
          if_neg (by simpa using hw), List.filter_filter]
        congr 1
        apply List.filter_congr
        intro x _
        by_cases h1 : x ∈ acc
        · simp [h1]
        · have h2 : x ≠ w := fun he => h1 (he ▸ hw)
          simp [h1, h2]
      · rw [if_neg hw, loadLoop_ok rest (idx + 1) (acc ++ [w]) hrest]
        congr 1
        rw [firstOccurrences, List.filter_cons,
          if_pos (by simpa using hw), List.filter_filter, List.append_assoc]
        congr 1
        rw [List.singleton_append]
        congr 1
        apply List.filter_congr
        intro x _
        by_cases h1 : x ∈ acc <;> by_cases h2 : x = w <;>
          simp [h1, h2, List.mem_append]

theorem firstOccurrences_nodup : ∀ ws : List (List Nat),
    (firstOccurrences ws).Nodup
  | [] => List.nodup_nil
  | w :: ws => by
    rw [firstOccurrences]
    refine List.nodup_cons.2 ⟨?_, List.Nodup.filter _ (firstOccurrences_nodup ws)⟩
    intro hmem
    have h2 := (List.mem_filter.1 hmem).2
    simp at h2

/-- C9: characterisation of vocabulary loading over a sequence of raw
input lines.  If some line fails to parse as a 5-letter word, loading
fails with `invalidWord` citing the 1-based number of the first such
line; if every line parses, loading fails with `emptyWordList` exactly
on empty input, and otherwise succeeds returning the parsed words with
(case-insensitively normalised) duplicates dropped, keeping the first
occurrence of each word in order — a duplicate-free list; loading
succeeds exactly when no line is invalid and at least one word
remains. -/
theorem load_word_list_spec (lines : List (List Nat)) :
    (∀ i, List.findIdx? (fun l => (parse_word5 l).isNone) lines = some i →
      load_word_list lines = Except.error (LoadError.invalidWord (i + 1)))
    ∧ (List.findIdx? (fun l => (parse_word5 l).isNone) lines = none →
        ((lines = [] →
            load_word_list lines = Except.error LoadError.emptyWordList)
         ∧ (lines ≠ [] →
            load_word_list lines
              = Except.ok (firstOccurrences (lines.filterMap parse_word5))
            ∧ (firstOccurrences (lines.filterMap parse_word5)).Nodup)))
    ∧ ((∃ ws, load_word_list lines = Except.ok ws) ↔
        (List.findIdx? (fun l => (parse_word5 l).isNone) lines = none
          ∧ lines ≠ [])) := by
  have hfilternil : ∀ X : List (List Nat),
      X.filter (fun w => decide (w ∉ ([] : List (List Nat)))) = X := by
    intro X
    have hpt : ∀ x ∈ X,
        (decide (x ∉ ([] : List (List Nat)))) = (fun _ : List Nat => true) x := by
      intro x _
      simp
    rw [List.filter_congr hpt, List.filter_true]
  refine ⟨?_, ?_, ?_⟩
  · intro i h
    rw [load_word_list, loadLoop_firstBad lines 0 [] i h]
  · intro hnone
    have hvalid : ∀ l ∈ lines, (parse_word5 l).isSome = true := by
      intro l hl
      have := List.findIdx?_eq_none_iff.1 hnone l hl
      simpa using this
    constructor
    · intro hnil
      subst hnil
      rfl
    · intro hne
      have hok := loadLoop_ok lines 0 [] hvalid
      rw [hfilternil, List.nil_append] at hok
      have hfone : firstOccurrences (lines.filterMap parse_word5) ≠ [] := by
        cases lines with
        | nil => exact absurd rfl hne
        | cons l rest =>
          have hl := hvalid l (List.mem_cons_self l rest)
          cases hp : parse_word5 l with
          | none => rw [hp] at hl; cases hl
          | some w =>
            rw [List.filterMap_cons, hp, firstOccurrences]
            exact List.cons_ne_nil _ _
      refine ⟨?_, firstOccurrences_nodup _⟩
      rw [load_word_list, hok]
      exact if_neg hfone
  · constructor
    · rintro ⟨ws, hws⟩
      cases hidx : List.findIdx? (fun l => (parse_word5 l).isNone) lines with
      | some i =>
        rw [load_word_list, loadLoop_firstBad lines 0 [] i hidx] at hws
        cases hws
      | none =>
        refine ⟨rfl, ?_⟩
        intro hnil
        subst hnil
        cases hws
    · rintro ⟨hnone, hne⟩
      have hvalid : ∀ l ∈ lines, (parse_word5 l).isSome = true := by
        intro l hl
        have := List.findIdx?_eq_none_iff.1 hnone l hl
        simpa using this
      have hok := loadLoop_ok lines 0 [] hvalid
      rw [hfilternil, List.nil_append] at hok
      have hfone : firstOccurrences (lines.filterMap parse_word5) ≠ [] := by
        cases lines with
        | nil => exact absurd rfl hne
        | cons l rest =>
          have hl := hvalid l (List.mem_cons_self l rest)
          cases hp : parse_word5 l with
          | none => rw [hp] at hl; cases hl
          | some w =>
            rw [List.filterMap_cons, hp, firstOccurrences]
            exact List.cons_ne_nil _ _
      refine ⟨firstOccurrences (lines.filterMap parse_word5), ?_⟩
      rw [load_word_list, hok]
      exact if_neg hfone

/-- Witness for C9: the test scenario — lines "apple", "berry",
"APPLE", "chase" load as [apple, berry, chase] (the uppercase
duplicate is dropped, order preserved), and replacing the third line
by "bad!" makes loading fail citing line 3. -/
theorem load_word_list_spec_witness :
    load_word_list [[97, 112, 112, 108, 101], [98, 101, 114, 114, 121],
        [65, 80, 80, 76, 69], [99, 104, 97, 115, 101]]
      = Except.ok [[97, 112, 112, 108, 101], [98, 101, 114, 114, 121],
          [99, 104, 97, 115, 101]]
    ∧ load_word_list [[97, 112, 112, 108, 101], [98, 101, 114, 114, 121],
        [98, 97, 100, 33], [99, 104, 97, 115, 101]]
      = Except.error (LoadError.invalidWord 3) := by
  constructor
  · have h := (load_word_list_spec [[97, 112, 112, 108, 101],
      [98, 101, 114, 114, 121], [65, 80, 80, 76, 69],
      [99, 104, 97, 115, 101]]).2.1 (by decide)
    exact ((h.2 (by decide)).1).trans (by decide)
  · exact (load_word_list_spec [[97, 112, 112, 108, 101],
      [98, 101, 114, 114, 121], [98, 97, 100, 33],
      [99, 104, 97, 115, 101]]).1 2 (by decide)
